import Mathlib

/-!
Shallow embedding of the telemetry-platform edge agent
(src/edge-agent/src: offline_buffer.py, batcher.py, uploader.py,
can_reader.py), together with theorems settling the specification
claims about it.

Conventions of the embedding:
* a directory is a list of `DirFile` records in filesystem listing
  order; `Path.glob` of a pattern keeps listing order, so the model
  filters the list in place;
* timestamps and sleep durations are exact rationals (the Python code
  uses floats, but every claim here is about comparisons, sums and
  doublings whose intent is exact arithmetic);
* deleting or renaming a file always succeeds (the claims assume this),
  so eviction and archiving simply drop entries from the list.
-/

namespace Telemetry

/-- One entry of a directory: file name, byte size, modification time.
Mirrors the information `offline_buffer.py` and `uploader.py` read via
`Path.stat` (`st_size`, `st_mtime`). -/
structure DirFile where
  name : String
  size : ℕ
  mtime : ℕ
  deriving DecidableEq, Repr

/-- Whether `Path.glob("*.parquet")` matches a file name: the name ends
in `.parquet`, and is not a dotfile (pathlib glob never matches names
starting with a dot unless the pattern does).  Stated over the
character list of the name. -/
def matchesGlob (n : String) : Bool :=
  List.isSuffixOf ".parquet".data n.data &&
    !(match n.data with | [] => false | c :: _ => c == '.')

/-- The sort key used by `OfflineBuffer.get_pending_files`:
`key=lambda p: p.stat().st_mtime`. -/
def byMtime (a b : DirFile) : Prop := a.mtime ≤ b.mtime

instance : DecidableRel byMtime :=
  fun a b => inferInstanceAs (Decidable (a.mtime ≤ b.mtime))

instance : IsTotal DirFile byMtime := ⟨fun a b => Nat.le_total a.mtime b.mtime⟩

instance : IsTrans DirFile byMtime := ⟨fun _ _ _ h h' => Nat.le_trans h h'⟩

/-- `OfflineBuffer.get_pending_files`: the `*.parquet` files of the
pending directory, sorted by modification time (oldest first).
`list.sort` in Python is a stable sort; `insertionSort` is as well. -/
def get_pending_files (dir : List DirFile) : List DirFile :=
  List.insertionSort byMtime (dir.filter fun f => matchesGlob f.name)

/-- `OfflineBuffer.get_disk_usage`: total size of the `*.parquet` files
in the pending directory. -/
def get_disk_usage (dir : List DirFile) : ℕ :=
  ((dir.filter fun f => matchesGlob f.name).map DirFile.size).sum

/-- `OfflineBuffer.check_disk_space`: true when usage is within the
limit (the code returns `False` exactly when `usage > max_disk_bytes`). -/
def check_disk_space (maxDiskBytes : ℕ) (dir : List DirFile) : Bool :=
  decide (get_disk_usage dir ≤ maxDiskBytes)

/-- Survival predicate of an eviction round: a directory entry stays on
disk exactly when its name is not among the unlinked victims. -/
def evictKeep (victims : List DirFile) (f : DirFile) : Bool :=
  !((victims.map DirFile.name).elem f.name)

theorem evictKeep_eq_false_iff (victims : List DirFile) (f : DirFile) :
    evictKeep victims f = false ↔ f.name ∈ victims.map DirFile.name := by
  simp [evictKeep, List.elem_iff]

theorem evictKeep_eq_true_iff (victims : List DirFile) (f : DirFile) :
    evictKeep victims f = true ↔ f.name ∉ victims.map DirFile.name := by
  simp [evictKeep, List.elem_iff]

/-- `OfflineBuffer.evict_oldest(count)`: unlink the `count` oldest
pending files (all unlinks are assumed to succeed).  Returns the new
directory contents and the number of files evicted. -/
def evict_oldest (count : ℕ) (dir : List DirFile) : List DirFile × ℕ :=
  let victims := (get_pending_files dir).take count
  (dir.filter (evictKeep victims), victims.length)

/-- Number of `*.parquet` files in the directory (the quantity that the
queue limit bounds). -/
def pqCount (dir : List DirFile) : ℕ :=
  (dir.filter fun f => matchesGlob f.name).length

theorem countP_and_lt {α : Type} (p q : α → Bool) (l : List α) (x : α)
    (hx : x ∈ l) (hp : p x = true) (hq : q x = false) :
    (l.filter fun a => p a && q a).length < (l.filter p).length := by
  induction l with
  | nil => cases hx
  | cons a t ih =>
    rcases List.mem_cons.mp hx with rfl | hxt
    · have h1 : (t.filter fun a => p a && q a).length ≤ (t.filter p).length := by
        have : (t.filter fun a => p a && q a) = (t.filter p).filter q := by
          rw [List.filter_filter]
          exact List.filter_congr fun a _ => by cases p a <;> cases q a <;> rfl
        rw [this]
        exact Nat.le_trans (List.length_filter_le _ _) (Nat.le_refl _)
      simp only [List.filter_cons, hp, hq, Bool.and_false, if_false, if_true,
        Bool.false_eq_true, List.length_cons]
      omega
    · have h2 := ih hxt
      simp only [List.filter_cons]
      cases hpa : p a <;> cases hqa : q a <;>
        simp only [Bool.and_self, Bool.and_false, Bool.and_true, if_true, if_false,
          Bool.false_eq_true, Bool.true_eq_false, List.length_cons] <;> omega

theorem pqCount_evict_lt (count : ℕ) (dir : List DirFile)
    (hc : 1 ≤ count) (hpf : get_pending_files dir ≠ []) :
    pqCount (evict_oldest count dir).1 < pqCount dir := by
  obtain ⟨v, vs, hv⟩ : ∃ v vs, (get_pending_files dir).take count = v :: vs := by
    cases hpfl : get_pending_files dir with
    | nil => exact absurd hpfl hpf
    | cons a l =>
      cases count with
      | zero => omega
      | succ n => exact ⟨a, l.take n, by simp [hpfl]⟩
  have hvmem : v ∈ get_pending_files dir := by
    have : v ∈ (get_pending_files dir).take count := by rw [hv]; exact List.mem_cons_self _ _
    exact List.mem_of_mem_take this
  have hvdir : v ∈ dir.filter fun f => matchesGlob f.name :=
    (List.perm_insertionSort byMtime _).subset hvmem
  have hvdir' : v ∈ dir := List.mem_of_mem_filter hvdir
  have hvglob : matchesGlob v.name = true := (List.mem_filter.mp hvdir).2
  have hq : evictKeep ((get_pending_files dir).take count) v = false :=
    (evictKeep_eq_false_iff _ _).mpr
      (List.mem_map_of_mem DirFile.name (by rw [hv]; exact List.mem_cons_self _ _))
  have h1 : pqCount (evict_oldest count dir).1
      = (dir.filter fun a =>
          matchesGlob a.name && evictKeep ((get_pending_files dir).take count) a).length := by
    simp only [pqCount, evict_oldest, List.filter_filter]
  rw [h1]
  exact countP_and_lt (fun a => matchesGlob a.name)
    (evictKeep ((get_pending_files dir).take count)) dir v hvdir' hvglob hq

/-- The disk-limit loop of `OfflineBuffer.enforce_limits`: while usage
exceeds the limit, evict the oldest `max(1, len // 10)` files; stop if
the directory has no pending files or an eviction removes nothing. -/
def enforce_disk_loop (maxDiskBytes : ℕ) (dir : List DirFile) : List DirFile :=
  if check_disk_space maxDiskBytes dir then dir
  else
    if hpf : get_pending_files dir = [] then dir
    else
      let k := max 1 ((get_pending_files dir).length / 10)
      let res := evict_oldest k dir
      if res.2 = 0 then res.1
      else
        have : pqCount res.1 < pqCount dir :=
          pqCount_evict_lt k dir (Nat.le_max_left 1 _) hpf
        enforce_disk_loop maxDiskBytes res.1
termination_by pqCount dir

/-- `OfflineBuffer.enforce_limits`: first trim the queue length to
`max_queue_size`, then run the disk-limit loop. -/
def enforce_limits (maxDiskBytes maxQueueSize : ℕ) (dir : List DirFile) : List DirFile :=
  let dir1 :=
    if maxQueueSize < (get_pending_files dir).length then
      (evict_oldest ((get_pending_files dir).length - maxQueueSize) dir).1
    else dir
  enforce_disk_loop maxDiskBytes dir1

/-- Names in a directory listing are pairwise distinct (a filesystem
directory cannot hold two entries of the same name). -/
def nodupNames (dir : List DirFile) : Prop := (dir.map DirFile.name).Nodup

theorem filter_keep_take_drop :
    ∀ (l : List DirFile), (l.map DirFile.name).Nodup →
      ∀ k, l.filter (evictKeep (l.take k)) = l.drop k := by
  intro l
  induction l with
  | nil => intro _ k; cases k <;> rfl
  | cons a t ih =>
    intro hnd k
    cases k with
    | zero =>
      simp only [List.take_zero, List.drop_zero]
      apply List.filter_eq_self.mpr
      intro f _
      simp [evictKeep]
    | succ j =>
      simp only [List.take_succ_cons, List.drop_succ_cons, List.filter_cons]
      have hnd' : (a.name ∉ t.map DirFile.name) ∧ (t.map DirFile.name).Nodup := by
        simpa only [List.map_cons, List.nodup_cons] using hnd
      have ha : evictKeep (a :: t.take j) a = false := by
        simp [evictKeep, List.elem_eq_mem, List.mem_cons]
      rw [ha]
      simp only [Bool.false_eq_true, if_false]
      have hcong : t.filter (evictKeep (a :: t.take j)) = t.filter (evictKeep (t.take j)) := by
        apply List.filter_congr
        intro f hf
        have hne : f.name ≠ a.name := by
          intro he
          exact hnd'.1 (he ▸ List.mem_map_of_mem DirFile.name hf)
        simp [evictKeep, List.elem_eq_mem, List.mem_cons, hne]
      rw [hcong]
      exact ih hnd'.2 j

theorem pending_names_nodup (dir : List DirFile) (hnd : nodupNames dir) :
    ((get_pending_files dir).map DirFile.name).Nodup := by
  have hperm : List.Perm (get_pending_files dir) (dir.filter fun f => matchesGlob f.name) :=
    List.perm_insertionSort _ _
  have hsub : List.Sublist (dir.filter fun f => matchesGlob f.name) dir := List.filter_sublist _
  exact ((hperm.map DirFile.name).nodup_iff).mpr (hnd.sublist (hsub.map DirFile.name))

theorem evict_filter_perm (k : ℕ) (dir : List DirFile) (hnd : nodupNames dir) :
    List.Perm ((evict_oldest k dir).1.filter fun f => matchesGlob f.name)
      ((get_pending_files dir).drop k) := by
  have hperm : List.Perm (get_pending_files dir) (dir.filter fun f => matchesGlob f.name) :=
    List.perm_insertionSort _ _
  have hcomm : ((evict_oldest k dir).1.filter fun f => matchesGlob f.name)
      = ((dir.filter fun f => matchesGlob f.name).filter
          (evictKeep ((get_pending_files dir).take k))) := by
    simp only [evict_oldest, List.filter_filter]
    exact List.filter_congr fun a _ => Bool.and_comm _ _
  rw [hcomm]
  have h1 : List.Perm ((dir.filter fun f => matchesGlob f.name).filter
        (evictKeep ((get_pending_files dir).take k)))
      ((get_pending_files dir).filter (evictKeep ((get_pending_files dir).take k))) :=
    hperm.symm.filter _
  have h2 : (get_pending_files dir).filter (evictKeep ((get_pending_files dir).take k))
      = (get_pending_files dir).drop k :=
    filter_keep_take_drop _ (pending_names_nodup dir hnd) k
  exact h2 ▸ h1

theorem pending_length_eq (dir : List DirFile) :
    (get_pending_files dir).length = pqCount dir :=
  (List.perm_insertionSort _ _).length_eq

theorem pqCount_evict_eq (k : ℕ) (dir : List DirFile) (hnd : nodupNames dir) :
    pqCount (evict_oldest k dir).1 = pqCount dir - k := by
  have h1 := (evict_filter_perm k dir hnd).length_eq
  have h2 : ((get_pending_files dir).drop k).length = (get_pending_files dir).length - k :=
    List.length_drop _ _
  have h3 := pending_length_eq dir
  have h4 : pqCount (evict_oldest k dir).1
      = ((evict_oldest k dir).1.filter fun f => matchesGlob f.name).length := rfl
  omega

theorem evict_sublist (k : ℕ) (dir : List DirFile) :
    List.Sublist (evict_oldest k dir).1 dir :=
  List.filter_sublist _

theorem nodupNames_sublist {d d' : List DirFile} (h : List.Sublist d' d)
    (hnd : nodupNames d) : nodupNames d' :=
  hnd.sublist (h.map DirFile.name)

theorem disk_loop_sublist (maxD : ℕ) :
    ∀ (n : ℕ) (dir : List DirFile), pqCount dir ≤ n →
      List.Sublist (enforce_disk_loop maxD dir) dir := by
  intro n
  induction n with
  | zero =>
    intro dir h0
    have hpf : get_pending_files dir = [] := by
      have := pending_length_eq dir
      exact List.eq_nil_of_length_eq_zero (by omega)
    rw [enforce_disk_loop]
    by_cases h1 : check_disk_space maxD dir = true
    · rw [if_pos h1]
    · rw [if_neg h1, dif_pos hpf]
  | succ n ih =>
    intro dir hle
    rw [enforce_disk_loop]
    by_cases h1 : check_disk_space maxD dir = true
    · rw [if_pos h1]
    · rw [if_neg h1]
      by_cases h2 : get_pending_files dir = []
      · rw [dif_pos h2]
      · rw [dif_neg h2]
        by_cases h3 : (evict_oldest (max 1 ((get_pending_files dir).length / 10)) dir).2 = 0
        · rw [if_pos h3]
          exact evict_sublist _ dir
        · rw [if_neg h3]
          have hlt : pqCount (evict_oldest (max 1 ((get_pending_files dir).length / 10)) dir).1
              < pqCount dir :=
            pqCount_evict_lt _ dir (Nat.le_max_left 1 _) h2
          exact (ih _ (by omega)).trans (evict_sublist _ dir)

theorem disk_loop_usage_le (maxD : ℕ) :
    ∀ (n : ℕ) (dir : List DirFile), pqCount dir ≤ n → nodupNames dir →
      get_disk_usage (enforce_disk_loop maxD dir) ≤ maxD := by
  intro n
  induction n with
  | zero =>
    intro dir h0 _
    have hfil : (dir.filter fun f => matchesGlob f.name) = [] :=
      List.eq_nil_of_length_eq_zero (by simpa [pqCount] using h0)
    have husage : get_disk_usage dir = 0 := by
      simp [get_disk_usage, hfil]
    have hpf : get_pending_files dir = [] := by
      have := pending_length_eq dir
      exact List.eq_nil_of_length_eq_zero (by omega)
    rw [enforce_disk_loop]
    by_cases h1 : check_disk_space maxD dir = true
    · rw [if_pos h1, husage]
      exact Nat.zero_le maxD
    · rw [if_neg h1, dif_pos hpf, husage]
      exact Nat.zero_le maxD
  | succ n ih =>
    intro dir hle hnd
    rw [enforce_disk_loop]
    by_cases h1 : check_disk_space maxD dir = true
    · rw [if_pos h1]
      simpa only [check_disk_space, decide_eq_true_iff] using h1
    · rw [if_neg h1]
      by_cases h2 : get_pending_files dir = []
      · rw [dif_pos h2]
        have hfil : (dir.filter fun f => matchesGlob f.name) = [] := by
          have hperm : List.Perm (get_pending_files dir)
              (dir.filter fun f => matchesGlob f.name) :=
            List.perm_insertionSort _ _
          apply List.eq_nil_of_length_eq_zero
          have hl := hperm.length_eq
          rw [h2] at hl
          exact hl.symm.trans rfl
        simp [get_disk_usage, hfil]
      · rw [dif_neg h2]
        by_cases h3 : (evict_oldest (max 1 ((get_pending_files dir).length / 10)) dir).2 = 0
        · exfalso
          have hlen : (evict_oldest (max 1 ((get_pending_files dir).length / 10)) dir).2
              = min (max 1 ((get_pending_files dir).length / 10))
                  (get_pending_files dir).length := by
            simp [evict_oldest]
          have hpos : 0 < (get_pending_files dir).length := List.length_pos.mpr h2
          have hkpos : 1 ≤ max 1 ((get_pending_files dir).length / 10) := Nat.le_max_left _ _
          omega
        · rw [if_neg h3]
          have hlt : pqCount (evict_oldest (max 1 ((get_pending_files dir).length / 10)) dir).1
              < pqCount dir :=
            pqCount_evict_lt _ dir (Nat.le_max_left 1 _) h2
          exact ih _ (by omega) (nodupNames_sublist (evict_sublist _ dir) hnd)

theorem pqCount_enforce_limits_le (maxD maxQ : ℕ) (dir : List DirFile)
    (hnd : nodupNames dir) :
    pqCount (enforce_limits maxD maxQ dir) ≤ maxQ := by
  rw [enforce_limits]
  by_cases h1 : maxQ < (get_pending_files dir).length
  · rw [if_pos h1]
    have h2 : pqCount (evict_oldest ((get_pending_files dir).length - maxQ) dir).1 = maxQ := by
      rw [pqCount_evict_eq _ dir hnd]
      have := pending_length_eq dir
      omega
    have hsub := disk_loop_sublist maxD
      (pqCount (evict_oldest ((get_pending_files dir).length - maxQ) dir).1)
      (evict_oldest ((get_pending_files dir).length - maxQ) dir).1 (Nat.le_refl _)
    have hcnt := List.Sublist.length_le (hsub.filter fun f => matchesGlob f.name)
    simp only [pqCount] at h2 ⊢
    omega
  · rw [if_neg h1]
    have hsub := disk_loop_sublist maxD (pqCount dir) dir (Nat.le_refl _)
    have hcnt := List.Sublist.length_le (hsub.filter fun f => matchesGlob f.name)
    have h3 := pending_length_eq dir
    simp only [pqCount] at hcnt h3 ⊢
    omega

theorem enforce_limits_sublist (maxD maxQ : ℕ) (dir : List DirFile) :
    List.Sublist (enforce_limits maxD maxQ dir) dir := by
  rw [enforce_limits]
  by_cases h1 : maxQ < (get_pending_files dir).length
  · rw [if_pos h1]
    exact (disk_loop_sublist maxD _ _ (Nat.le_refl _)).trans (evict_sublist _ dir)
  · rw [if_neg h1]
    exact disk_loop_sublist maxD _ _ (Nat.le_refl _)

theorem usage_enforce_limits_le (maxD maxQ : ℕ) (dir : List DirFile)
    (hnd : nodupNames dir) :
    get_disk_usage (enforce_limits maxD maxQ dir) ≤ maxD := by
  rw [enforce_limits]
  by_cases h1 : maxQ < (get_pending_files dir).length
  · rw [if_pos h1]
    exact disk_loop_usage_le maxD _ _ (Nat.le_refl _)
      (nodupNames_sublist (evict_sublist _ dir) hnd)
  · rw [if_neg h1]
    exact disk_loop_usage_le maxD _ _ (Nat.le_refl _) hnd

instance (dir : List DirFile) : Decidable (nodupNames dir) :=
  inferInstanceAs (Decidable ((dir.map DirFile.name).Nodup))

/-- C1: for every starting state of the pending directory (a directory
of `*.parquet` files with distinct names; every attempted deletion
succeeds, as eviction in this model always removes the file), after
`enforce_limits` returns, the sum of the byte sizes of the files in the
pending directory is at most `max_disk_bytes` and the number of files is
at most `max_queue_size`. -/
theorem claim_C1_enforce_limits_bounds (maxD maxQ : ℕ) (dir : List DirFile)
    (hnd : nodupNames dir)
    (hall : ∀ f ∈ dir, matchesGlob f.name = true) :
    ((enforce_limits maxD maxQ dir).map DirFile.size).sum ≤ maxD ∧
      (enforce_limits maxD maxQ dir).length ≤ maxQ := by
  have hsub := enforce_limits_sublist maxD maxQ dir
  have hall' : ∀ f ∈ enforce_limits maxD maxQ dir, matchesGlob f.name = true :=
    fun f hf => hall f (hsub.subset hf)
  have hfid : ((enforce_limits maxD maxQ dir).filter fun f => matchesGlob f.name)
      = enforce_limits maxD maxQ dir := List.filter_eq_self.mpr hall'
  constructor
  · have h := usage_enforce_limits_le maxD maxQ dir hnd
    rw [get_disk_usage, hfid] at h
    exact h
  · have h := pqCount_enforce_limits_le maxD maxQ dir hnd
    rw [pqCount, hfid] at h
    exact h

/-- A two-file pending directory over the disk limit, used to witness C1. -/
def dirC1 : List DirFile :=
  [⟨"20250101T000000Z_raw.parquet", 50, 1⟩, ⟨"20250101T000100Z_raw.parquet", 60, 2⟩]

theorem claim_C1_witness :
    nodupNames dirC1 ∧ (∀ f ∈ dirC1, matchesGlob f.name = true) ∧
      (((enforce_limits 80 5 dirC1).map DirFile.size).sum ≤ 80 ∧
        (enforce_limits 80 5 dirC1).length ≤ 5) :=
  ⟨by decide, by decide, claim_C1_enforce_limits_bounds 80 5 dirC1 (by decide) (by decide)⟩

/-! Uploader (src/edge-agent/src/uploader.py) -/

/-- Result of one upload attempt inside `S3Uploader._upload_with_retry`:
success, `EndpointConnectionError` (no network), `botocore.ClientError`
carrying an error code such as "AccessDenied" or "NoSuchBucket", or any
other exception (for example a client-side encoding error). -/
inductive UploadOutcome where
  | ok : UploadOutcome
  | connErr : UploadOutcome
  | clientErr (code : String) : UploadOutcome
  | fatalErr : UploadOutcome
  deriving DecidableEq, Repr

/-- The `for attempt in range(max_retries)` loop of
`S3Uploader._upload_with_retry`, with `remaining = max_retries - attempt`
iterations left (the code's `attempt < max_retries - 1` test is
`0 < remaining` after one iteration is peeled off).  `outcomes n` is the
result of the n-th attempt (0-based).  Returns
(returned value, backoff sleeps performed in order, attempts made).
On `connErr` and `clientErr` the code logs, sleeps `backoff`, and doubles
the backoff capped at `maxBackoff`; on any other exception it returns
False at once; after the last attempt it returns False without sleeping. -/
def upload_loop (outcomes : ℕ → UploadOutcome) (maxBackoff : ℚ) :
    ℕ → ℕ → ℚ → Bool × List ℚ × ℕ
  | _, 0, _ => (false, [], 0)
  | attempt, remaining + 1, backoff =>
    match outcomes attempt with
    | .ok => (true, [], 1)
    | .connErr =>
      if 0 < remaining then
        let r := upload_loop outcomes maxBackoff (attempt + 1) remaining
          (min (backoff * 2) maxBackoff)
        (r.1, backoff :: r.2.1, r.2.2 + 1)
      else (false, [], 1)
    | .clientErr _ =>
      if 0 < remaining then
        let r := upload_loop outcomes maxBackoff (attempt + 1) remaining
          (min (backoff * 2) maxBackoff)
        (r.1, backoff :: r.2.1, r.2.2 + 1)
      else (false, [], 1)
    | .fatalErr => (false, [], 1)

/-- `S3Uploader._upload_with_retry`: run the attempt loop from attempt 0
with `backoff = initial_backoff_sec`. -/
def upload_with_retry (outcomes : ℕ → UploadOutcome) (maxRetries : ℕ)
    (initialBackoff maxBackoff : ℚ) : Bool × List ℚ × ℕ :=
  upload_loop outcomes maxBackoff 0 maxRetries initialBackoff

/-- Result of `S3Uploader.retry_pending`: the returned counts, the files
attempted in order, and the contents of the pending directory afterwards. -/
structure RetryResult where
  success_count : ℕ
  fail_count : ℕ
  attempts : List DirFile
  pending : List DirFile
  deriving DecidableEq, Repr

/-- `S3Uploader.retry_pending`: iterate over
`pending_dir.glob("*.parquet")` in directory-listing order (pathlib glob
does not sort), re-attempt each file, and rename the successes into the
archive directory.  `ok f` abstracts whether `_upload_with_retry`
returned true for file `f`. -/
def retry_pending (ok : DirFile → Bool) (dir : List DirFile) : RetryResult :=
  let pf := dir.filter fun f => matchesGlob f.name
  let counts := pf.foldl
    (fun acc f => if ok f then (acc.1 + 1, acc.2) else (acc.1, acc.2 + 1)) (0, 0)
  { success_count := counts.1
    fail_count := counts.2
    attempts := pf
    pending := dir.filter fun f => !(matchesGlob f.name && ok f) }

theorem min_double_step (b m : ℚ) (hb : 0 ≤ b) (hm : 0 ≤ m) (i : ℕ) :
    min (min (b * 2) m * 2 ^ i) m = min (b * 2 ^ (i + 1)) m := by
  have h2i : (1 : ℚ) ≤ 2 ^ i := one_le_pow₀ (by norm_num)
  rcases le_total (b * 2) m with h | h
  · rw [min_eq_left h]
    have he : b * 2 * 2 ^ i = b * 2 ^ (i + 1) := by ring
    rw [he]
  · have h1 : m ≤ m * 2 ^ i := le_mul_of_one_le_right hm h2i
    have h3 : m ≤ b * 2 ^ (i + 1) := by
      have h4 : b * 2 ≤ b * 2 * 2 ^ i := le_mul_of_one_le_right (by linarith) h2i
      have h5 : b * 2 * 2 ^ i = b * 2 ^ (i + 1) := by ring
      linarith
    rw [min_eq_right h, min_eq_right h1, min_eq_right h3]

theorem upload_loop_spec (outcomes : ℕ → UploadOutcome) (mB : ℚ) :
    ∀ (remaining attempt : ℕ) (b : ℚ), 0 ≤ b → b ≤ mB →
      (upload_loop outcomes mB attempt remaining b).2.2 ≤ remaining ∧
      (upload_loop outcomes mB attempt remaining b).2.1.length ≤ remaining - 1 ∧
      ∀ i, i < (upload_loop outcomes mB attempt remaining b).2.1.length →
        (upload_loop outcomes mB attempt remaining b).2.1.getD i 0 = min (b * 2 ^ i) mB := by
  intro remaining
  induction remaining with
  | zero =>
    intro attempt b hb hbm
    refine ⟨by simp [upload_loop], by simp [upload_loop], ?_⟩
    intro i h
    simp [upload_loop] at h
  | succ n ih =>
    intro attempt b hb hbm
    have hmB : (0 : ℚ) ≤ mB := le_trans hb hbm
    rcases houtcome : outcomes attempt with _ | _ | code | _
    · refine ⟨by simp [upload_loop, houtcome], by simp [upload_loop, houtcome], ?_⟩
      intro i h
      simp [upload_loop, houtcome] at h
    · by_cases hn : 0 < n
      · have hrec := ih (attempt + 1) (min (b * 2) mB)
          (le_min (by linarith) hmB) (min_le_right _ _)
        refine ⟨?_, ?_, ?_⟩
        · simp only [upload_loop, houtcome, if_pos hn]
          omega
        · simp only [upload_loop, houtcome, if_pos hn, List.length_cons]
          omega
        · intro i h
          simp only [upload_loop, houtcome, if_pos hn] at h ⊢
          cases i with
          | zero => rw [List.getD_cons_zero, pow_zero, mul_one, min_eq_left hbm]
          | succ j =>
            rw [List.getD_cons_succ]
            have hj : j < (upload_loop outcomes mB (attempt + 1) n (min (b * 2) mB)).2.1.length := by
              simpa using h
            rw [hrec.2.2 j hj, min_double_step b mB hb hmB j]
      · refine ⟨?_, ?_, ?_⟩
        · simp only [upload_loop, houtcome, if_neg hn]
          omega
        · simp only [upload_loop, houtcome, if_neg hn]
          simp
        · intro i h
          simp only [upload_loop, houtcome, if_neg hn] at h
          simp at h
    · by_cases hn : 0 < n
      · have hrec := ih (attempt + 1) (min (b * 2) mB)
          (le_min (by linarith) hmB) (min_le_right _ _)
        refine ⟨?_, ?_, ?_⟩
        · simp only [upload_loop, houtcome, if_pos hn]
          omega
        · simp only [upload_loop, houtcome, if_pos hn, List.length_cons]
          omega
        · intro i h
          simp only [upload_loop, houtcome, if_pos hn] at h ⊢
          cases i with
          | zero => rw [List.getD_cons_zero, pow_zero, mul_one, min_eq_left hbm]
          | succ j =>
            rw [List.getD_cons_succ]
            have hj : j < (upload_loop outcomes mB (attempt + 1) n (min (b * 2) mB)).2.1.length := by
              simpa using h
            rw [hrec.2.2 j hj, min_double_step b mB hb hmB j]
      · refine ⟨?_, ?_, ?_⟩
        · simp only [upload_loop, houtcome, if_neg hn]
          omega
        · simp only [upload_loop, houtcome, if_neg hn]
          simp
        · intro i h
          simp only [upload_loop, houtcome, if_neg hn] at h
          simp at h
    · refine ⟨by simp [upload_loop, houtcome], by simp [upload_loop, houtcome], ?_⟩
      intro i h
      simp [upload_loop, houtcome] at h

/-- C7: `_upload_with_retry` makes at most `max_retries` upload attempts
and sleeps at most `max_retries - 1` times (never after the final
attempt); the i-th backoff sleep (0-based index i) lasts
`min(initial_backoff_sec * 2^i, max_backoff_sec)`: the backoff starts at
`initial_backoff_sec`, doubles after each retryable failure and is
capped at `max_backoff_sec`.  Stated for configurations with
`0 ≤ initial_backoff_sec ≤ max_backoff_sec`. -/
theorem claim_C7_backoff (outcomes : ℕ → UploadOutcome) (mR : ℕ) (iB mB : ℚ)
    (h0 : 0 ≤ iB) (hle : iB ≤ mB) :
    (upload_with_retry outcomes mR iB mB).2.2 ≤ mR ∧
      (upload_with_retry outcomes mR iB mB).2.1.length ≤ mR - 1 ∧
      ∀ i, i < (upload_with_retry outcomes mR iB mB).2.1.length →
        (upload_with_retry outcomes mR iB mB).2.1.getD i 0 = min (iB * 2 ^ i) mB :=
  upload_loop_spec outcomes mB mR 0 iB h0 hle

/-- Attempt outcomes used to witness C7: two connection failures, then
success (the retry scenario sketched in the spec test plan). -/
def outcomesC7 : ℕ → UploadOutcome := fun n => if n < 2 then .connErr else .ok

theorem claim_C7_witness :
    (0 : ℚ) ≤ 2 ∧ (2 : ℚ) ≤ 300 ∧
      ((upload_with_retry outcomesC7 5 2 300).2.2 ≤ 5 ∧
        (upload_with_retry outcomesC7 5 2 300).2.1.length ≤ 5 - 1 ∧
        ∀ i, i < (upload_with_retry outcomesC7 5 2 300).2.1.length →
          (upload_with_retry outcomesC7 5 2 300).2.1.getD i 0 = min ((2 : ℚ) * 2 ^ i) 300) :=
  ⟨by norm_num, by norm_num, claim_C7_backoff outcomesC7 5 2 300 (by norm_num) (by norm_num)⟩


theorem upload_loop_fatal (outcomes : ℕ → UploadOutcome) (mB : ℚ) :
    ∀ (d attempt remaining : ℕ) (b : ℚ),
      d < remaining →
      outcomes (attempt + d) = .fatalErr →
      (∀ i, i < d → outcomes (attempt + i) = .connErr ∨
        ∃ c, outcomes (attempt + i) = .clientErr c) →
      (upload_loop outcomes mB attempt remaining b).1 = false ∧
      (upload_loop outcomes mB attempt remaining b).2.1.length = d ∧
      (upload_loop outcomes mB attempt remaining b).2.2 = d + 1 := by
  intro d
  induction d with
  | zero =>
    intro attempt remaining b hd hfatal _
    rw [Nat.add_zero] at hfatal
    cases remaining with
    | zero => omega
    | succ n =>
      refine ⟨?_, ?_, ?_⟩ <;> simp [upload_loop, hfatal]
  | succ d ih =>
    intro attempt remaining b hd hfatal hpre
    cases remaining with
    | zero => omega
    | succ n =>
      have hn : 0 < n := by omega
      have hfatal' : outcomes (attempt + 1 + d) = .fatalErr := by
        rw [show attempt + 1 + d = attempt + (d + 1) from by omega]
        exact hfatal
      have hpre' : ∀ i, i < d → outcomes (attempt + 1 + i) = .connErr ∨
          ∃ c, outcomes (attempt + 1 + i) = .clientErr c := by
        intro i hi
        have h := hpre (i + 1) (by omega)
        rwa [show attempt + (i + 1) = attempt + 1 + i from by omega] at h
      have hrec := ih (attempt + 1) n (min (b * 2) mB) (by omega) hfatal' hpre'
      have h0 := hpre 0 (by omega)
      rw [Nat.add_zero] at h0
      rcases h0 with hc | ⟨c, hc⟩
      · refine ⟨?_, ?_, ?_⟩
        · simp only [upload_loop, hc, if_pos hn]
          exact hrec.1
        · simp only [upload_loop, hc, if_pos hn, List.length_cons]
          rw [hrec.2.1]
        · simp only [upload_loop, hc, if_pos hn]
          rw [hrec.2.2]
      · refine ⟨?_, ?_, ?_⟩
        · simp only [upload_loop, hc, if_pos hn]
          exact hrec.1
        · simp only [upload_loop, hc, if_pos hn, List.length_cons]
          rw [hrec.2.1]
        · simp only [upload_loop, hc, if_pos hn]
          rw [hrec.2.2]


/-- Attempt outcomes refuting C5: the first attempt fails with a
`ClientError` whose code is "AccessDenied" (an authorization failure);
any later attempt would succeed. -/
def outcomesC5 : ℕ → UploadOutcome :=
  fun n => if n = 0 then .clientErr "AccessDenied" else .ok

/-- C5 counterexample: with `max_retries = 2`,
`initial_backoff_sec = 2`, `max_backoff_sec = 300` and an authorization
failure ("AccessDenied") on the first attempt, `_upload_with_retry` does
NOT return false immediately: it sleeps the 2-second backoff once and
makes a second attempt (which succeeds, returning true).  The
`except ClientError` handler retries every client error regardless of
its code, so non-retryable failures are treated like transient ones. -/
theorem claim_C5_counterexample :
    outcomesC5 0 = UploadOutcome.clientErr "AccessDenied" ∧
      upload_with_retry outcomesC5 2 2 300 = (true, [2], 2) := by
  refine ⟨rfl, ?_⟩
  decide

/-- C5 amended: only a failure that is neither a success, a connection
error nor a `ClientError` — i.e. an unexpected exception such as a
client-side encoding error — makes `_upload_with_retry` return false
immediately: if attempt j (0-based, j < max_retries) raises such an
error and all earlier attempts failed with connection or client errors,
the call returns false after exactly j+1 attempts with exactly j backoff
sleeps (none after the fatal error).  `ClientError` failures such as
authorization or missing-bucket errors are instead retried with backoff. -/
theorem claim_C5_fatal_immediate (outcomes : ℕ → UploadOutcome) (mR : ℕ)
    (iB mB : ℚ) (j : ℕ) (hj : j < mR)
    (hfatal : outcomes j = .fatalErr)
    (hpre : ∀ i, i < j → outcomes i = .connErr ∨ ∃ c, outcomes i = .clientErr c) :
    (upload_with_retry outcomes mR iB mB).1 = false ∧
      (upload_with_retry outcomes mR iB mB).2.1.length = j ∧
      (upload_with_retry outcomes mR iB mB).2.2 = j + 1 := by
  have hfatal' : outcomes (0 + j) = .fatalErr := by rwa [Nat.zero_add]
  have hpre' : ∀ i, i < j → outcomes (0 + i) = .connErr ∨
      ∃ c, outcomes (0 + i) = .clientErr c := by
    intro i hi
    rw [Nat.zero_add]
    exact hpre i hi
  exact upload_loop_fatal outcomes mB j 0 mR iB hj hfatal' hpre'

/-- Attempt outcomes used to witness the amended C5: a connection error,
then an unexpected (non-ClientError) exception. -/
def outcomesC5w : ℕ → UploadOutcome :=
  fun n => if n = 0 then .connErr else .fatalErr

theorem claim_C5_witness :
    1 < 3 ∧
      ((upload_with_retry outcomesC5w 3 2 300).1 = false ∧
        (upload_with_retry outcomesC5w 3 2 300).2.1.length = 1 ∧
        (upload_with_retry outcomesC5w 3 2 300).2.2 = 1 + 1) :=
  ⟨by norm_num,
    claim_C5_fatal_immediate outcomesC5w 3 2 300 1 (by norm_num) (by decide)
      (fun i hi => Or.inl (by
        have hi0 : i = 0 := by omega
        rw [hi0]
        rfl))⟩

theorem foldl_retry_counts (ok : DirFile → Bool) :
    ∀ (l : List DirFile) (a b : ℕ),
      l.foldl (fun acc f => if ok f then (acc.1 + 1, acc.2) else (acc.1, acc.2 + 1)) (a, b)
        = (a + (l.filter ok).length, b + (l.filter fun f => !(ok f)).length) := by
  intro l
  induction l with
  | nil => intro a b; simp
  | cons f t ih =>
    intro a b
    by_cases hf : ok f = true
    · rw [List.foldl_cons]
      simp only [hf, if_true]
      rw [ih (a + 1) b, List.filter_cons_of_pos hf,
        List.filter_cons_of_neg (by simp [hf]), List.length_cons]
      refine Prod.ext ?_ ?_ <;> simp
      omega
    · rw [List.foldl_cons]
      simp only [hf, Bool.false_eq_true, if_false]
      have hf' : (!(ok f)) = true := by simp [Bool.eq_false_iff.mpr hf]
      rw [ih a (b + 1), List.filter_cons_of_neg (by simp [hf]),
        @List.filter_cons_of_pos _ (fun g => !(ok g)) f t hf', List.length_cons]
      refine Prod.ext ?_ ?_ <;> simp
      omega

/-- C6 amended: `retry_pending()` re-attempts exactly the `*.parquet`
files of the pending directory, in directory-listing order (pathlib
`glob` does not sort, so the order is NOT by modification time), and
returns `(success_count, fail_count)`: the number of re-attempted files
whose upload succeeded and the number that failed. -/
theorem claim_C6_retry_pending (ok : DirFile → Bool) (dir : List DirFile) :
    (retry_pending ok dir).attempts = (dir.filter fun f => matchesGlob f.name) ∧
      (retry_pending ok dir).success_count
          = ((dir.filter fun f => matchesGlob f.name).filter ok).length ∧
      (retry_pending ok dir).fail_count
          = ((dir.filter fun f => matchesGlob f.name).filter fun f => !(ok f)).length := by
  have hfold := foldl_retry_counts ok (dir.filter fun f => matchesGlob f.name) 0 0
  refine ⟨rfl, ?_, ?_⟩
  · simp only [retry_pending]
    rw [hfold]
    simp
  · simp only [retry_pending]
    rw [hfold]
    simp

/-- A pending directory whose listing order disagrees with modification
time: the first-listed file is newer. -/
def dirC6 : List DirFile :=
  [⟨"20250101T000100Z_raw.parquet", 1, 5⟩, ⟨"20250101T000000Z_raw.parquet", 1, 3⟩]

/-- C6 counterexample: `retry_pending` re-attempts the files of `dirC6`
in listing order, whose modification times are [5, 3] — not
non-decreasing, so the enumeration is not oldest-first by modification
time (`retry_pending` uses `glob` without the sort that
`get_pending_files` applies). -/
theorem claim_C6_counterexample :
    (retry_pending (fun _ => false) dirC6).attempts.map DirFile.mtime = [5, 3] ∧
      ¬ List.Sorted (· ≤ ·)
        ((retry_pending (fun _ => false) dirC6).attempts.map DirFile.mtime) := by
  have hmap : (retry_pending (fun _ => false) dirC6).attempts.map DirFile.mtime = [5, 3] := by
    decide
  refine ⟨hmap, ?_⟩
  intro hs
  rw [hmap] at hs
  have h53 : (5 : ℕ) ≤ 3 := (List.sorted_cons.mp hs).1 3 (by simp)
  omega


theorem matchesGlob_eq_false_of_not_suffix {n : String}
    (h : List.isSuffixOf ".parquet".data n.data = false) : matchesGlob n = false := by
  simp [matchesGlob, h]

theorem get_disk_usage_perm {d d' : List DirFile} (h : List.Perm d d') :
    get_disk_usage d = get_disk_usage d' :=
  ((h.filter _).map _).sum_eq

theorem mem_evict_of_nonglob {dir : List DirFile} {f : DirFile} (hf : f ∈ dir)
    (hg : matchesGlob f.name = false) (k : ℕ) : f ∈ (evict_oldest k dir).1 := by
  show f ∈ dir.filter (evictKeep ((get_pending_files dir).take k))
  refine List.mem_filter.mpr ⟨hf, ?_⟩
  apply (evictKeep_eq_true_iff _ _).mpr
  intro hmem
  obtain ⟨v, hv, hvn⟩ := List.mem_map.mp hmem
  have hvp : v ∈ get_pending_files dir := List.mem_of_mem_take hv
  have hvglob : matchesGlob v.name = true :=
    (List.mem_filter.mp ((List.perm_insertionSort byMtime _).subset hvp)).2
  rw [hvn, hg] at hvglob
  exact Bool.false_ne_true hvglob

theorem mem_disk_loop_of_nonglob (maxD : ℕ) :
    ∀ (n : ℕ) (dir : List DirFile) (f : DirFile), pqCount dir ≤ n → f ∈ dir →
      matchesGlob f.name = false → f ∈ enforce_disk_loop maxD dir := by
  intro n
  induction n with
  | zero =>
    intro dir f h0 hf hg
    have hpf : get_pending_files dir = [] := by
      have := pending_length_eq dir
      exact List.eq_nil_of_length_eq_zero (by omega)
    rw [enforce_disk_loop]
    by_cases h1 : check_disk_space maxD dir = true
    · rw [if_pos h1]; exact hf
    · rw [if_neg h1, dif_pos hpf]; exact hf
  | succ n ih =>
    intro dir f hle hf hg
    rw [enforce_disk_loop]
    by_cases h1 : check_disk_space maxD dir = true
    · rw [if_pos h1]; exact hf
    · rw [if_neg h1]
      by_cases h2 : get_pending_files dir = []
      · rw [dif_pos h2]; exact hf
      · rw [dif_neg h2]
        by_cases h3 : (evict_oldest (max 1 ((get_pending_files dir).length / 10)) dir).2 = 0
        · rw [if_pos h3]
          exact mem_evict_of_nonglob hf hg _
        · rw [if_neg h3]
          have hlt : pqCount (evict_oldest (max 1 ((get_pending_files dir).length / 10)) dir).1
              < pqCount dir :=
            pqCount_evict_lt _ dir (Nat.le_max_left 1 _) h2
          exact ih _ f (by omega) (mem_evict_of_nonglob hf hg _) hg

theorem mem_enforce_limits_of_nonglob (maxD maxQ : ℕ) {dir : List DirFile} {f : DirFile}
    (hf : f ∈ dir) (hg : matchesGlob f.name = false) :
    f ∈ enforce_limits maxD maxQ dir := by
  rw [enforce_limits]
  by_cases h1 : maxQ < (get_pending_files dir).length
  · rw [if_pos h1]
    exact mem_disk_loop_of_nonglob maxD _ _ f (Nat.le_refl _)
      (mem_evict_of_nonglob hf hg _) hg
  · rw [if_neg h1]
    exact mem_disk_loop_of_nonglob maxD _ _ f (Nat.le_refl _) hf hg

/-- C10: a file of the pending directory whose name does not end in
`.parquet` is invisible to every pending-directory operation:
`get_pending_files` never returns it, `get_disk_usage` does not count
its size (usage is unchanged when the file is removed from the
directory), `evict_oldest` and `enforce_limits` never delete it, and
`retry_pending` never re-attempts it and leaves it in the pending
directory. -/
theorem claim_C10_nonparquet_untouched (dir : List DirFile) (f : DirFile)
    (hf : f ∈ dir) (hnp : List.isSuffixOf ".parquet".data f.name.data = false) :
    f ∉ get_pending_files dir ∧
      get_disk_usage dir = get_disk_usage (dir.erase f) ∧
      (∀ k, f ∈ (evict_oldest k dir).1) ∧
      (∀ maxD maxQ, f ∈ enforce_limits maxD maxQ dir) ∧
      (∀ ok, f ∉ (retry_pending ok dir).attempts) ∧
      (∀ ok, f ∈ (retry_pending ok dir).pending) := by
  have hg : matchesGlob f.name = false := matchesGlob_eq_false_of_not_suffix hnp
  refine ⟨?_, ?_, ?_, ?_, ?_, ?_⟩
  · intro hmem
    have hglob : matchesGlob f.name = true :=
      (List.mem_filter.mp ((List.perm_insertionSort byMtime _).subset hmem)).2
    rw [hg] at hglob
    exact Bool.false_ne_true hglob
  · have hperm := List.perm_cons_erase hf
    rw [get_disk_usage_perm hperm]
    show ((List.filter _ (f :: dir.erase f)).map DirFile.size).sum = _
    rw [List.filter_cons_of_neg (by simp [hg])]
    rfl
  · intro k
    exact mem_evict_of_nonglob hf hg k
  · intro maxD maxQ
    exact mem_enforce_limits_of_nonglob maxD maxQ hf hg
  · intro ok hmem
    have hglob : matchesGlob f.name = true := (List.mem_filter.mp hmem).2
    rw [hg] at hglob
    exact Bool.false_ne_true hglob
  · intro ok
    refine List.mem_filter.mpr ⟨hf, ?_⟩
    simp [hg]

/-- A pending directory holding one parquet file and one stray text
file, used to witness C10. -/
def dirC10 : List DirFile :=
  [⟨"20250101T000000Z_raw.parquet", 1, 1⟩, ⟨"notes.txt", 7, 2⟩]

theorem claim_C10_witness :
    (⟨"notes.txt", 7, 2⟩ : DirFile) ∈ dirC10 ∧
      ((⟨"notes.txt", 7, 2⟩ : DirFile) ∉ get_pending_files dirC10 ∧
        get_disk_usage dirC10 = get_disk_usage (dirC10.erase ⟨"notes.txt", 7, 2⟩) ∧
        (∀ k, (⟨"notes.txt", 7, 2⟩ : DirFile) ∈ (evict_oldest k dirC10).1) ∧
        (∀ maxD maxQ, (⟨"notes.txt", 7, 2⟩ : DirFile) ∈ enforce_limits maxD maxQ dirC10) ∧
        (∀ ok, (⟨"notes.txt", 7, 2⟩ : DirFile) ∉ (retry_pending ok dirC10).attempts) ∧
        (∀ ok, (⟨"notes.txt", 7, 2⟩ : DirFile) ∈ (retry_pending ok dirC10).pending)) :=
  ⟨by decide, claim_C10_nonparquet_untouched dirC10 ⟨"notes.txt", 7, 2⟩ (by decide) (by decide)⟩


/-! Batcher (src/edge-agent/src/batcher.py) -/

/-- A CAN frame as the batcher consumes it: Unix timestamp in seconds,
arbitration id, data length code and payload bytes
(src/edge-agent/src/can_reader.py, dataclass CANFrame; the error/FD
flags and channel play no role in the batcher). -/
structure CANFrame where
  timestamp : ℚ
  arb_id : ℕ
  dlc : ℕ
  data : List ℕ
  deriving DecidableEq, Repr

/-- Civil date (year, month, day) from days since the Unix epoch in the
proleptic Gregorian calendar — the date `datetime.fromtimestamp(_, timezone.utc)`
yields, via the standard era-based algorithm. -/
def civilFromDays (z : ℤ) : ℤ × ℕ × ℕ :=
  let z2 := z + 719468
  let era : ℤ := Int.fdiv z2 146097
  let doe : ℕ := (z2 - era * 146097).toNat
  let yoe : ℕ := (doe - doe / 1460 + doe / 36524 - doe / 146096) / 365
  let doy : ℕ := doe - (365 * yoe + yoe / 4 - yoe / 100)
  let mp : ℕ := (5 * doy + 2) / 153
  let d : ℕ := doy - (153 * mp + 2) / 5 + 1
  let m : ℕ := if mp < 10 then mp + 3 else mp - 9
  ((yoe : ℤ) + era * 400 + (if m ≤ 2 then 1 else 0), m, d)

/-- UTC calendar fields (year, month, day, hour, minute, second) of a
Unix timestamp, as `datetime.fromtimestamp(ts, tz=timezone.utc)` renders
them for `strftime` (which drops fractional seconds, i.e. floors). -/
def utcFields (t : ℚ) : ℤ × ℕ × ℕ × ℕ × ℕ × ℕ :=
  let s : ℤ := ⌊t⌋
  let days : ℤ := Int.fdiv s 86400
  let sod : ℕ := (s - days * 86400).toNat
  let ymd := civilFromDays days
  (ymd.1, ymd.2.1, ymd.2.2, sod / 3600, sod % 3600 / 60, sod % 60)

/-- Two-digit zero padding: the `:02d` f-string format and the
`%m %d %H %M %S` strftime directives. -/
def pad2 (n : ℕ) : String :=
  if n < 10 then "0" ++ toString n else toString n

/-- The partition directory `CANFrameBatcher._get_output_path` builds:
`<output_dir>/vehicle_id=<id>/year=<Y>/month=<MM>/day=<DD>` from the
batch start timestamp in UTC (year rendered unpadded as in the f-string,
month and day two-digit zero-padded). -/
def partition_dir (outputDir vehicleId : String) (ts : ℚ) : String :=
  let f := utcFields ts
  outputDir ++ "/vehicle_id=" ++ vehicleId ++ "/year=" ++ toString f.1
    ++ "/month=" ++ pad2 f.2.1 ++ "/day=" ++ pad2 f.2.2.1

/-- The `dt.strftime("%Y%m%dT%H%M%S")` stamp of the batch start time. -/
def timeStamp (ts : ℚ) : String :=
  let f := utcFields ts
  toString f.1 ++ pad2 f.2.1 ++ pad2 f.2.2.1 ++ "T" ++ pad2 f.2.2.2.1
    ++ pad2 f.2.2.2.2.1 ++ pad2 f.2.2.2.2.2

/-- `CANFrameBatcher._get_output_path`: the full output file path
`<partition_dir>/<stamp>Z_raw.parquet`. -/
def output_path (outputDir vehicleId : String) (ts : ℚ) : String :=
  partition_dir outputDir vehicleId ts ++ "/" ++ timeStamp ts ++ "Z_raw.parquet"

/-- A filesystem operation performed by the batcher when writing. -/
inductive FsOp where
  | mkdirAll (path : String)
  | writeFile (path : String)
  | rename (source destination : String)
  deriving DecidableEq, Repr

def FsOp.isRename : FsOp → Bool
  | .rename _ _ => true
  | _ => false

/-- The filesystem operations `CANFrameBatcher._write_batch` performs,
in order: `_get_output_path` creates the partition directory
(`mkdir(parents=True, exist_ok=True)`), then `pq.write_table` writes the
Parquet bytes directly to the final output path.  The frames only
determine the bytes written, not the paths touched. -/
def write_batch_trace (outputDir vehicleId : String) (_frames : List CANFrame)
    (startTime : ℚ) : List FsOp :=
  [FsOp.mkdirAll (partition_dir outputDir vehicleId startTime),
   FsOp.writeFile (output_path outputDir vehicleId startTime)]

/-- The mutable batch state of `CANFrameBatcher`. -/
structure BatcherState where
  current_batch : List CANFrame
  batch_start_time : Option ℚ
  deriving DecidableEq, Repr

/-- One file emitted by the batcher: the frames written, the batch start
time used, the integer UTC second `fileT = ⌊start⌋` that the filename
stamp encodes (strftime truncates to whole seconds), and the rendered
path. -/
structure EmittedBatch where
  frames : List CANFrame
  start : ℚ
  fileT : ℤ
  path : String
  deriving DecidableEq, Repr

/-- `CANFrameBatcher.should_flush(current_time)`. -/
def should_flush (windowSec : ℚ) (maxFrames : ℕ) (st : BatcherState) (t : ℚ) : Bool :=
  if st.current_batch.isEmpty then false
  else
    match st.batch_start_time with
    | none => false
    | some s =>
      if windowSec ≤ t - s then true
      else if maxFrames ≤ st.current_batch.length then true
      else false

/-- `CANFrameBatcher.flush`: write the batch (if non-empty) at the batch
start time — falling back to the first frame timestamp when the start
time is unset — and reset the state. -/
def flush (outputDir vehicleId : String) (st : BatcherState) :
    Option EmittedBatch × BatcherState :=
  match st.current_batch, st.batch_start_time with
  | [], _ => (none, st)
  | f :: rest, sOpt =>
    let s := sOpt.getD f.timestamp
    (some { frames := f :: rest, start := s, fileT := ⌊s⌋,
            path := output_path outputDir vehicleId s },
      { current_batch := [], batch_start_time := none })

/-- `CANFrameBatcher.add_frame`: set the start time if the batch is
empty, append the frame, then flush if `should_flush(frame.timestamp)`. -/
def add_frame (windowSec : ℚ) (maxFrames : ℕ) (outputDir vehicleId : String)
    (st : BatcherState) (frame : CANFrame) : Option EmittedBatch × BatcherState :=
  let st1 := if st.current_batch.isEmpty
    then { st with batch_start_time := some frame.timestamp } else st
  let st2 := { st1 with current_batch := st1.current_batch ++ [frame] }
  if should_flush windowSec maxFrames st2 frame.timestamp
  then flush outputDir vehicleId st2
  else (none, st2)

/-- Feeding a list of frames through `add_frame`, collecting the files
emitted along the way. -/
def run_batcher (windowSec : ℚ) (maxFrames : ℕ) (outputDir vehicleId : String) :
    List CANFrame → BatcherState → List EmittedBatch × BatcherState
  | [], st => ([], st)
  | f :: fs, st =>
    let r := add_frame windowSec maxFrames outputDir vehicleId st f
    let rest := run_batcher windowSec maxFrames outputDir vehicleId fs r.2
    (r.1.toList ++ rest.1, rest.2)

/-- `CANFrameBatcher.process_frames`: add each frame in turn, then a
final unconditional `flush()` of whatever remains. -/
def process_frames (windowSec : ℚ) (maxFrames : ℕ) (outputDir vehicleId : String)
    (frames : List CANFrame) : List EmittedBatch × BatcherState :=
  let r := run_batcher windowSec maxFrames outputDir vehicleId frames ⟨[], none⟩
  let fin := flush outputDir vehicleId r.2
  (r.1 ++ fin.1.toList, fin.2)

/-- Invariant of the batch state between `add_frame` calls: either the
batch is empty with no start time, or the start time is the first
frame timestamp, the batch is still below `max_frames`, and every frame
in it arrived strictly within the window of the start. -/
def BatchInv (windowSec : ℚ) (maxFrames : ℕ) (st : BatcherState) : Prop :=
  (st.current_batch = [] ∧ st.batch_start_time = none) ∨
  (∃ f rest, st.current_batch = f :: rest ∧ st.batch_start_time = some f.timestamp ∧
    st.current_batch.length < maxFrames ∧
    ∀ g ∈ st.current_batch, g.timestamp - f.timestamp < windowSec)

/-! CAN reader statistics (src/edge-agent/src/can_reader.py) -/

/-- The reader state that `RealCANReader.get_stats` reads: the cumulative
counters `self._stats = {"frames": _, "errors": _, "bus_off": _}` and the
rolling deque `self._frame_times` of frame arrival instants. -/
structure ReaderState where
  frames : ℕ
  errors : ℕ
  bus_off : ℕ
  frame_times : List ℚ
  deriving DecidableEq, Repr

/-- `round(x, 1)`: round to one decimal place.  Mathlib `round` rounds
half away from zero while Python rounds half to even, but `get_stats`
only ever rounds `recent / 10`, whose value times ten is an integer, so
no tie can occur and the two agree. -/
def round1 (x : ℚ) : ℚ := ((round (x * 10) : ℤ) : ℚ) / 10

/-- `RealCANReader.get_stats`: `{**self._stats, "frames_per_sec": fps}`
with `fps = round(recent / self._fps_window, 1)` and `recent` the number
of recorded arrival instants `t` with `now - t <= self._fps_window`;
`__init__` fixes `self._fps_window = 10.0`.  The returned dict is
modeled as an association list in insertion order. -/
def get_stats (st : ReaderState) (now : ℚ) : List (String × ℚ) :=
  let recent := st.frame_times.countP fun t => decide (now - t ≤ 10)
  [("frames", (st.frames : ℚ)), ("errors", (st.errors : ℚ)),
   ("bus_off", (st.bus_off : ℚ)),
   ("frames_per_sec", round1 ((recent : ℚ) / 10))]


/-- What holds of every file the batcher emits: its frames start with
the first frame of the batch, whose timestamp bounds the integer second
`fileT` encoded in the filename from above; the path is rendered from
the batch start; and either the batch was full (`max_frames`) or every
frame except possibly the last arrived strictly within the window. -/
def EmittedOK (windowSec : ℚ) (maxFrames : ℕ) (outputDir vehicleId : String)
    (e : EmittedBatch) : Prop :=
  (∃ g rest, e.frames = g :: rest ∧ e.start = g.timestamp ∧ (e.fileT : ℚ) ≤ g.timestamp) ∧
  e.fileT = ⌊e.start⌋ ∧
  e.path = output_path outputDir vehicleId e.start ∧
  (e.frames.length = maxFrames ∨
    ∀ g ∈ e.frames.dropLast, g.timestamp - e.start < windowSec)

theorem should_flush_iff (w : ℚ) (mf : ℕ) (st : BatcherState) (t : ℚ) :
    should_flush w mf st t = true ↔
      st.current_batch ≠ [] ∧ ∃ s, st.batch_start_time = some s ∧
        (w ≤ t - s ∨ mf ≤ st.current_batch.length) := by
  rcases st with ⟨batch, sOpt⟩
  cases batch with
  | nil => simp [should_flush]
  | cons b bs =>
    cases sOpt with
    | none => simp [should_flush]
    | some s =>
      by_cases h1 : w ≤ t - s
      · simp [should_flush, h1]
      · by_cases h2 : mf ≤ (b :: bs).length
        · simp [should_flush, h1, h2]
        · simp [should_flush, h1, h2]

theorem add_frame_empty (w : ℚ) (mf : ℕ) (dir vid : String) (f : CANFrame) :
    add_frame w mf dir vid ⟨[], none⟩ f
      = if should_flush w mf ⟨[f], some f.timestamp⟩ f.timestamp
        then flush dir vid ⟨[f], some f.timestamp⟩
        else (none, ⟨[f], some f.timestamp⟩) := rfl

theorem add_frame_cons (w : ℚ) (mf : ℕ) (dir vid : String) (g0 : CANFrame)
    (rest0 : List CANFrame) (sOpt : Option ℚ) (f : CANFrame) :
    add_frame w mf dir vid ⟨g0 :: rest0, sOpt⟩ f
      = if should_flush w mf ⟨g0 :: (rest0 ++ [f]), sOpt⟩ f.timestamp
        then flush dir vid ⟨g0 :: (rest0 ++ [f]), sOpt⟩
        else (none, ⟨g0 :: (rest0 ++ [f]), sOpt⟩) := rfl

theorem flush_cons (dir vid : String) (g0 : CANFrame) (rest0 : List CANFrame) (s : ℚ) :
    flush dir vid ⟨g0 :: rest0, some s⟩
      = (some { frames := g0 :: rest0, start := s, fileT := ⌊s⌋,
                path := output_path dir vid s },
          (⟨[], none⟩ : BatcherState)) := rfl

theorem flush_spec (w : ℚ) (mf : ℕ) (dir vid : String) (st : BatcherState)
    (hinv : BatchInv w mf st) :
    ∀ e, (flush dir vid st).1 = some e → EmittedOK w mf dir vid e := by
  intro e he
  rcases hinv with ⟨hb, hs⟩ | ⟨g0, rest0, hb, hs, hlen, hall⟩
  · rcases st with ⟨batch, sOpt⟩
    simp only at hb hs
    subst hb; subst hs
    simp [flush] at he
  · rcases st with ⟨batch, sOpt⟩
    simp only at hb hs hall hlen
    subst hb; subst hs
    rw [flush_cons] at he
    simp only [Option.some.injEq] at he
    subst he
    refine ⟨⟨g0, rest0, rfl, rfl, Int.floor_le _⟩, rfl, rfl, Or.inr ?_⟩
    intro g hg
    exact hall g ((List.dropLast_sublist _).subset hg)

theorem add_frame_spec (w : ℚ) (mf : ℕ) (dir vid : String) (st : BatcherState)
    (f : CANFrame) (hinv : BatchInv w mf st) :
    BatchInv w mf (add_frame w mf dir vid st f).2 ∧
      ∀ e, (add_frame w mf dir vid st f).1 = some e → EmittedOK w mf dir vid e := by
  rcases hinv with ⟨hb, hs⟩ | ⟨g0, rest0, hb, hs, hlen, hall⟩
  · rcases st with ⟨batch, sOpt⟩
    simp only at hb hs
    subst hb; subst hs
    rw [add_frame_empty]
    by_cases hsf : should_flush w mf ⟨[f], some f.timestamp⟩ f.timestamp = true
    · rw [if_pos hsf, flush_cons]
      constructor
      · exact Or.inl ⟨rfl, rfl⟩
      · intro e he
        simp only [Option.some.injEq] at he
        subst he
        refine ⟨⟨f, [], rfl, rfl, Int.floor_le _⟩, rfl, rfl, Or.inr ?_⟩
        intro g hg
        simp [List.dropLast] at hg
    · rw [if_neg hsf]
      have hnot := (not_congr (should_flush_iff w mf ⟨[f], some f.timestamp⟩ f.timestamp)).mp hsf
      push_neg at hnot
      have h2 := hnot (by simp) f.timestamp rfl
      push_neg at h2
      constructor
      · refine Or.inr ⟨f, [], rfl, rfl, ?_, ?_⟩
        · simpa using h2.2
        · intro g hg
          simp only [List.mem_singleton] at hg
          subst hg
          simpa using h2.1
      · intro e he
        simp at he
  · rcases st with ⟨batch, sOpt⟩
    simp only at hb hs hall hlen
    subst hb; subst hs
    rw [add_frame_cons]
    by_cases hsf : should_flush w mf
        ⟨g0 :: (rest0 ++ [f]), some g0.timestamp⟩ f.timestamp = true
    · rw [if_pos hsf, flush_cons]
      constructor
      · exact Or.inl ⟨rfl, rfl⟩
      · intro e he
        simp only [Option.some.injEq] at he
        subst he
        refine ⟨⟨g0, rest0 ++ [f], rfl, rfl, Int.floor_le _⟩, rfl, rfl, ?_⟩
        by_cases hml : (g0 :: (rest0 ++ [f])).length = mf
        · exact Or.inl hml
        · refine Or.inr ?_
          intro g hg
          have hdl : (g0 :: (rest0 ++ [f])).dropLast = g0 :: rest0 := by
            rw [show g0 :: (rest0 ++ [f]) = (g0 :: rest0) ++ [f] from rfl]
            exact List.dropLast_concat
          rw [hdl] at hg
          exact hall g hg
    · rw [if_neg hsf]
      have hnot := (not_congr (should_flush_iff w mf
        ⟨g0 :: (rest0 ++ [f]), some g0.timestamp⟩ f.timestamp)).mp hsf
      push_neg at hnot
      have h2 := hnot (by simp) g0.timestamp rfl
      push_neg at h2
      constructor
      · refine Or.inr ⟨g0, rest0 ++ [f], rfl, rfl, ?_, ?_⟩
        · simpa using h2.2
        · intro g hg
          simp only [List.mem_cons, List.mem_append, List.not_mem_nil, or_false] at hg
          rcases hg with rfl | hg | rfl
          · exact hall _ (List.mem_cons_self _ _)
          · exact hall g (List.mem_cons_of_mem _ hg)
          · exact h2.1
      · intro e he
        simp at he

theorem run_batcher_spec (w : ℚ) (mf : ℕ) (dir vid : String) :
    ∀ (fs : List CANFrame) (st : BatcherState), BatchInv w mf st →
      BatchInv w mf (run_batcher w mf dir vid fs st).2 ∧
      ∀ e ∈ (run_batcher w mf dir vid fs st).1, EmittedOK w mf dir vid e := by
  intro fs
  induction fs with
  | nil =>
    intro st hinv
    exact ⟨hinv, by simp [run_batcher]⟩
  | cons f fs ih =>
    intro st hinv
    have hadd := add_frame_spec w mf dir vid st f hinv
    have hrun := ih _ hadd.1
    refine ⟨hrun.1, ?_⟩
    intro e he
    simp only [run_batcher, List.mem_append] at he
    rcases he with he | he
    · have hsome : (add_frame w mf dir vid st f).1 = some e := by
        cases hopt : (add_frame w mf dir vid st f).1 with
        | none => rw [hopt] at he; simp at he
        | some e2 =>
          rw [hopt] at he
          simp only [Option.toList_some, List.mem_singleton] at he
          rw [he]
      exact hadd.2 e hsome
    · exact hrun.2 e he

/-- C2 amended: for every file emitted by the batcher while processing a
frame stream (flushes triggered by `add_frame` as well as the final
`flush()` of `process_frames`), the filename encodes the integer UTC
second `T = ⌊batch start⌋` with `T ≤ timestamp of the first frame`, and
either the frame count equals `max_frames` or every frame EXCEPT
POSSIBLY THE LAST arrived strictly within the window
(`timestamp - batch start < window_sec`).  The flush-triggering final
frame itself may lie arbitrarily far beyond the window, because
`add_frame` appends the frame before calling `should_flush`. -/
theorem claim_C2_emitted_files (w : ℚ) (mf : ℕ) (dir vid : String)
    (fs : List CANFrame) :
    ∀ e ∈ (process_frames w mf dir vid fs).1, EmittedOK w mf dir vid e := by
  intro e he
  have hrun := run_batcher_spec w mf dir vid fs ⟨[], none⟩ (Or.inl ⟨rfl, rfl⟩)
  simp only [process_frames, List.mem_append] at he
  rcases he with he | he
  · exact hrun.2 e he
  · have hsome : (flush dir vid (run_batcher w mf dir vid fs ⟨[], none⟩).2).1 = some e := by
      cases hopt : (flush dir vid (run_batcher w mf dir vid fs ⟨[], none⟩).2).1 with
      | none => rw [hopt] at he; simp at he
      | some e2 =>
        rw [hopt] at he
        simp only [Option.toList_some, List.mem_singleton] at he
        rw [he]
    exact flush_spec w mf dir vid _ hrun.1 e hsome


theorem should_flush_false_of (w : ℚ) (mf : ℕ) (b : List CANFrame) (s t : ℚ)
    (h1 : ¬ w ≤ t - s) (h2 : ¬ mf ≤ b.length) :
    should_flush w mf ⟨b, some s⟩ t = false := by
  cases hsf : should_flush w mf ⟨b, some s⟩ t
  · rfl
  · exfalso
    obtain ⟨-, s2, hs2, hor⟩ := (should_flush_iff w mf ⟨b, some s⟩ t).mp hsf
    simp only at hs2
    injection hs2 with hs2
    subst hs2
    rcases hor with h | h
    · exact h1 h
    · exact h2 h

theorem should_flush_true_of (w : ℚ) (mf : ℕ) (b : List CANFrame) (s t : ℚ)
    (hb : b ≠ []) (h : w ≤ t - s ∨ mf ≤ b.length) :
    should_flush w mf ⟨b, some s⟩ t = true :=
  (should_flush_iff w mf ⟨b, some s⟩ t).mpr ⟨hb, s, rfl, h⟩

/-- Frames used to witness the amended C2: one frame at t = 0, one at
t = 70, with a 60-second window. -/
def frameC2a : CANFrame := ⟨0, 1, 8, []⟩

def frameC2b : CANFrame := ⟨70, 2, 8, []⟩

/-- The single file the witness run emits. -/
def emittedC2w : EmittedBatch :=
  ⟨[frameC2a, frameC2b], frameC2a.timestamp, ⌊frameC2a.timestamp⌋,
    output_path "./data" "V" frameC2a.timestamp⟩

theorem runC2w_eq :
    process_frames 60 100 "./data" "V" [frameC2a, frameC2b]
      = ([emittedC2w], ⟨[], none⟩) := by
  have ha : add_frame 60 100 "./data" "V" ⟨[], none⟩ frameC2a
      = (none, ⟨[frameC2a], some frameC2a.timestamp⟩) := by
    rw [add_frame_empty, should_flush_false_of 60 100 [frameC2a] frameC2a.timestamp
      frameC2a.timestamp (by norm_num [frameC2a]) (by norm_num)]
    simp
  have hb2 : add_frame 60 100 "./data" "V" ⟨[frameC2a], some frameC2a.timestamp⟩ frameC2b
      = (some emittedC2w, ⟨[], none⟩) := by
    rw [add_frame_cons, should_flush_true_of 60 100 (frameC2a :: ([] ++ [frameC2b]))
      frameC2a.timestamp frameC2b.timestamp (by simp)
      (Or.inl (by norm_num [frameC2a, frameC2b]))]
    simp only [if_true]
    rw [flush_cons]
    simp [emittedC2w]
  simp [process_frames, run_batcher, ha, hb2, flush]

theorem claim_C2_witness : EmittedOK 60 100 "./data" "V" emittedC2w :=
  claim_C2_emitted_files 60 100 "./data" "V" [frameC2a, frameC2b] emittedC2w (by
    rw [show (process_frames 60 100 "./data" "V" [frameC2a, frameC2b]).1 = [emittedC2w]
      from congrArg Prod.fst runC2w_eq]
    exact List.mem_singleton.mpr rfl)

/-- A frame far beyond the window of `frameC2a`. -/
def frameC2c : CANFrame := ⟨1000, 2, 8, []⟩

/-- The file the counterexample run emits: both frames, start 0. -/
def emittedC2x : EmittedBatch :=
  ⟨[frameC2a, frameC2c], frameC2a.timestamp, ⌊frameC2a.timestamp⌋,
    output_path "./data" "V" frameC2a.timestamp⟩

theorem runC2x_eq :
    process_frames 60 100000 "./data" "V" [frameC2a, frameC2c]
      = ([emittedC2x], ⟨[], none⟩) := by
  have ha : add_frame 60 100000 "./data" "V" ⟨[], none⟩ frameC2a
      = (none, ⟨[frameC2a], some frameC2a.timestamp⟩) := by
    rw [add_frame_empty, should_flush_false_of 60 100000 [frameC2a] frameC2a.timestamp
      frameC2a.timestamp (by norm_num [frameC2a]) (by norm_num)]
    simp
  have hb2 : add_frame 60 100000 "./data" "V" ⟨[frameC2a], some frameC2a.timestamp⟩ frameC2c
      = (some emittedC2x, ⟨[], none⟩) := by
    rw [add_frame_cons, should_flush_true_of 60 100000 (frameC2a :: ([] ++ [frameC2c]))
      frameC2a.timestamp frameC2c.timestamp (by simp)
      (Or.inl (by norm_num [frameC2a, frameC2c]))]
    simp only [if_true]
    rw [flush_cons]
    simp [emittedC2x]
  simp [process_frames, run_batcher, ha, hb2, flush]

/-- C2 counterexample: frames at t = 0 and t = 1000 with
`window_sec = 60`, `max_frames = 100000` yield a single file whose
filename encodes T = 0 while its maximum frame timestamp is 1000:
`max_frame_timestamp - T = 1000 > 60` and the frame count is
2 ≠ `max_frames`, refuting the claimed bound (the flush-triggering frame
is appended to the batch before `should_flush` is consulted, so it lands
in the file even though it is far outside the window). -/
theorem claim_C2_counterexample :
    (process_frames 60 100000 "./data" "V" [frameC2a, frameC2c]).1 = [emittedC2x] ∧
      (emittedC2x.frames.map CANFrame.timestamp).max? = some 1000 ∧
      emittedC2x.fileT = 0 ∧ emittedC2x.frames.length = 2 ∧
      ¬(((1000 : ℚ) - (emittedC2x.fileT : ℚ) ≤ 60) ∨ emittedC2x.frames.length = 100000) := by
  have hT : emittedC2x.fileT = 0 := by
    simp [emittedC2x, frameC2a]
  refine ⟨congrArg Prod.fst runC2x_eq, ?_, hT, rfl, ?_⟩
  · have hmap : emittedC2x.frames.map CANFrame.timestamp = [0, 1000] := rfl
    rw [hmap]
    have hmax : ([0, 1000] : List ℚ).max? = some (max 0 1000) := rfl
    rw [hmax, max_eq_right (by norm_num : (0 : ℚ) ≤ 1000)]
  · rw [hT]
    intro h
    rcases h with h | h
    · norm_num at h
    · simp [emittedC2x] at h

/-- C4: `should_flush(t)` returns true iff the batch is non-empty, the
start time is set, and `t - batch_start_time ≥ window_sec` or the batch
length is at least `max_frames`; it is always false on an empty batch;
in every state reachable from the initial state a non-empty batch has
`batch_start_time` equal to its first frame timestamp (so the start time
is always set when the batch is non-empty); and a frame whose timestamp
equals `batch_start_time + window_sec` triggers a flush via `add_frame`
(window boundary inclusive). -/
theorem claim_C4_should_flush_iff (w : ℚ) (mf : ℕ) :
    (∀ st t, should_flush w mf st t = true ↔
        st.current_batch ≠ [] ∧ ∃ s, st.batch_start_time = some s ∧
          (w ≤ t - s ∨ mf ≤ st.current_batch.length)) ∧
    (∀ (x : Option ℚ) t, should_flush w mf ⟨[], x⟩ t = false) ∧
    (∀ dir vid fs, (run_batcher w mf dir vid fs ⟨[], none⟩).2.current_batch ≠ [] →
        ∃ g rest, (run_batcher w mf dir vid fs ⟨[], none⟩).2.current_batch = g :: rest ∧
          (run_batcher w mf dir vid fs ⟨[], none⟩).2.batch_start_time = some g.timestamp) ∧
    (∀ dir vid st f s, st.current_batch ≠ [] → st.batch_start_time = some s →
        f.timestamp = s + w → (add_frame w mf dir vid st f).1 ≠ none) := by
  refine ⟨should_flush_iff w mf, ?_, ?_, ?_⟩
  · intro x t
    rfl
  · intro dir vid fs hne
    have hinv := (run_batcher_spec w mf dir vid fs ⟨[], none⟩ (Or.inl ⟨rfl, rfl⟩)).1
    rcases hinv with ⟨hb, _⟩ | ⟨g, rest, hb, hs, _, _⟩
    · exact absurd hb hne
    · exact ⟨g, rest, hb, hs⟩
  · intro dir vid st f s hne hs hts
    obtain ⟨b0, bs, hb⟩ := List.exists_cons_of_ne_nil hne
    rcases st with ⟨batch, sOpt⟩
    simp only at hb hs
    subst hb; subst hs
    rw [add_frame_cons]
    have htrue : should_flush w mf ⟨b0 :: (bs ++ [f]), some s⟩ f.timestamp = true := by
      apply (should_flush_iff w mf _ _).mpr
      refine ⟨by simp, s, rfl, Or.inl ?_⟩
      rw [hts]
      simp
    rw [if_pos htrue, flush_cons]
    simp

theorem claim_C4_witness :
    (add_frame 60 100 "./data" "V" ⟨[⟨0, 1, 8, []⟩], some 0⟩ ⟨60, 2, 8, []⟩).1 ≠ none :=
  (claim_C4_should_flush_iff 60 100).2.2.2 "./data" "V" ⟨[⟨0, 1, 8, []⟩], some 0⟩
    ⟨60, 2, 8, []⟩ 0 (by decide) rfl (by norm_num)

/-- The batch used in the C3 counterexample. -/
def framesC3 : List CANFrame := [⟨0, 1, 8, [1, 2]⟩]

/-- C3 counterexample: for a concrete batch written at start time 0,
`_write_batch` creates the partition directory and then writes the
Parquet bytes DIRECTLY at the final path
`19700101T000000Z_raw.parquet`; its filesystem trace contains no write
to a temporary name and no rename whatsoever, so the file is not
"created under a temporary name and only renamed to its final name". -/
theorem claim_C3_counterexample :
    write_batch_trace "./data" "VIN1" framesC3 0
        = [FsOp.mkdirAll "./data/vehicle_id=VIN1/year=1970/month=01/day=01",
           FsOp.writeFile
             "./data/vehicle_id=VIN1/year=1970/month=01/day=01/19700101T000000Z_raw.parquet"] ∧
      (write_batch_trace "./data" "VIN1" framesC3 0).countP FsOp.isRename = 0 := by
  exact ⟨by decide, rfl⟩

/-- C3 amended: `_write_batch` writes every output file directly at its
final name: its filesystem trace is exactly the partition-directory
creation followed by one write to the final output path — there is no
temporary file and no rename step, so a partially-written file WOULD be
visible under its final name if the process died mid-write. -/
theorem claim_C3_direct_write (outputDir vid : String) (frames : List CANFrame) (ts : ℚ) :
    write_batch_trace outputDir vid frames ts
        = [FsOp.mkdirAll (partition_dir outputDir vid ts),
           FsOp.writeFile (output_path outputDir vid ts)] ∧
      (write_batch_trace outputDir vid frames ts).countP FsOp.isRename = 0 :=
  ⟨rfl, rfl⟩

theorem output_path_floor_congr (outputDir vid : String) {t u : ℚ} (h : ⌊t⌋ = ⌊u⌋) :
    output_path outputDir vid t = output_path outputDir vid u := by
  unfold output_path partition_dir timeStamp utcFields
  rw [h]

/-- C8: the output path is
`<data_dir>/vehicle_id=<id>/year=<YYYY>/month=<MM>/day=<DD>/<YYYYMMDDThhmmss>Z_raw.parquet`
with every field taken from the batch start time rendered in UTC, month
and day two-digit zero-padded: vehicle "VIN12345" with batch start
2025-02-12T03:04:05Z (epoch 1739329445) gives exactly the path of the
spec example; a fractional start (same second) gives the same path
(strftime truncation); and 2023-11-05T23:59:59Z (epoch 1699228799)
checks the un-padded month and padded day the other way round. -/
theorem claim_C8_output_path :
    output_path "./data" "VIN12345" 1739329445
        = "./data/vehicle_id=VIN12345/year=2025/month=02/day=12/20250212T030405Z_raw.parquet" ∧
      output_path "./data" "VIN12345" (1739329445 + 1/4)
        = "./data/vehicle_id=VIN12345/year=2025/month=02/day=12/20250212T030405Z_raw.parquet" ∧
      output_path "/d" "V2" 1699228799
        = "/d/vehicle_id=V2/year=2023/month=11/day=05/20231105T235959Z_raw.parquet" := by
  refine ⟨by decide, ?_, by decide⟩
  have h : (⌊(1739329445 + 1 / 4 : ℚ)⌋ : ℤ) = ⌊(1739329445 : ℚ)⌋ := by norm_num
  rw [output_path_floor_congr "./data" "VIN12345" h]
  decide

theorem round1_nat_div_ten (n : ℕ) : round1 ((n : ℚ) / 10) = (n : ℚ) / 10 := by
  unfold round1
  rw [div_mul_cancel₀ _ (by norm_num : (10 : ℚ) ≠ 0), round_natCast]
  norm_num

/-- C9: `get_stats` returns a snapshot containing exactly the keys
`frames`, `errors`, `bus_off`, `frames_per_sec` (in that order), and
`frames_per_sec` is the number of recorded frame-arrival instants within
the last 10 seconds divided by 10.0 rounded to one decimal place — the
rounding is exact on such values, so it equals count/10. -/
theorem claim_C9_get_stats (st : ReaderState) (now : ℚ) :
    (get_stats st now).map Prod.fst = ["frames", "errors", "bus_off", "frames_per_sec"] ∧
      get_stats st now
        = [("frames", (st.frames : ℚ)), ("errors", (st.errors : ℚ)),
           ("bus_off", (st.bus_off : ℚ)),
           ("frames_per_sec",
             ((st.frame_times.countP fun t => decide (now - t ≤ 10)) : ℚ) / 10)] := by
  refine ⟨rfl, ?_⟩
  simp only [get_stats]
  rw [round1_nat_div_ten]

end Telemetry
